import Mathlib

/-!
Verification of the mojodoc cross-reference engine
(`packages/transform/src/markdown.ts`, the type-registry builder in the
transform module, and `toAnchor` from `nav-tree.ts`).

Strings are modelled as `List Char` (a Lean `String` is exactly a packed
`List Char`); every JavaScript function in scope is translated into an
executable Lean definition over `List Char`, with `String`-level wrappers
where a statement reads better over `String`.  JavaScript regular
expressions are rendered as explicit scanners implementing the same
leftmost / greedy / global semantics; where a scanner's recursion is not
structural, it takes an explicit fuel argument that the wrapper
instantiates with (input length + 1), which is sufficient because every
recursive call consumes at least one character (resp. one line).
One-character line-terminator handling: the models treat the characters
matched by JavaScript's line-terminator class where relevant, but the
line-splitting passes treat only `'\n'` as a line separator, matching the
source's own `split('\n')` convention.
-/

namespace Mojodoc

/-- The JavaScript `\s` whitespace class (WhiteSpace ∪ LineTerminator),
used by the tokenizer's `\s+` alternative, by `\s*` in the docstring
rewrites, and by `String.prototype.trim`. -/
def isJsWs (c : Char) : Bool :=
  c = ' ' || c = '\t' || c = '\n' || c = '\r' || c = '\u000B' || c = '\u000C' ||
  c = '\u00A0' || c = '\u1680' || ('\u2000' ≤ c && c ≤ '\u200A') ||
  c = '\u2028' || c = '\u2029' || c = '\u202F' || c = '\u205F' || c = '\u3000' ||
  c = '\uFEFF'

/-- JavaScript line terminators: the characters `.` does not match in a
regex without the `s` flag. -/
def isLineTerm (c : Char) : Bool :=
  c = '\n' || c = '\r' || c = '\u2028' || c = '\u2029'

/-- `[a-zA-Z_]`, the identifier-start class of the signature tokenizer. -/
def isIdStart (c : Char) : Bool :=
  ('a' ≤ c && c ≤ 'z') || ('A' ≤ c && c ≤ 'Z') || c = '_'

/-- `[a-zA-Z0-9_]`, the identifier-continuation class (also JavaScript `\w`). -/
def isIdCont (c : Char) : Bool :=
  isIdStart c || ('0' ≤ c && c ≤ '9')

/-- The punctuation class `[()[\]{}<>:,=\->]` of the signature tokenizer. -/
def isSigPunct (c : Char) : Bool :=
  c = '(' || c = ')' || c = '[' || c = ']' || c = '\x7B' || c = '\x7D' ||
  c = '<' || c = '>' || c = ':' || c = ',' || c = '=' || c = '-'

/-- A character at which no tokenizer alternative can begin a match: such
characters form the unmatched gaps that `tokenizeSignature` re-emits as
`text` tokens. -/
def isGapChar (c : Char) : Bool :=
  !(isIdStart c || isSigPunct c || isJsWs c)

/-- `listStartsWith s pre` decides whether `pre` is an initial segment of
`s` (JavaScript `String.prototype.startsWith`). -/
def listStartsWith : List Char → List Char → Bool
  | _, [] => true
  | [], _ :: _ => false
  | c :: cs, p :: ps => c = p && listStartsWith cs ps

/-- Concatenation of a list of character chunks. -/
def concatChunks : List (List Char) → List Char
  | [] => []
  | c :: cs => c ++ concatChunks cs

-- ============================================================================
-- Signature tokenizer (`tokenizeSignature`)
-- ============================================================================

inductive TokKind
  | keyword
  | name
  | type
  | param
  | punct
  | text
deriving DecidableEq

/-- A `SignatureToken`: the `value` field holds the exact source slice. -/
structure SigToken where
  kind : TokKind
  value : List Char
deriving DecidableEq

def sigKeywords : List (List Char) :=
  ["fn", "def", "struct", "trait", "alias", "comptime", "var", "let", "mut",
   "owned", "ref", "out", "inout", "raises", "async", "staticmethod"].map String.data

def sigBuiltinTypes : List (List Char) :=
  ["Int", "Int8", "Int16", "Int32", "Int64", "UInt", "UInt8", "UInt16",
   "UInt32", "UInt64", "Float16", "Float32", "Float64", "Bool", "String",
   "List", "Dict", "Optional", "Tuple", "Self", "None"].map String.data

/-- Classify a scanned identifier exactly as the tokenizer's `if` chain
does: keyword set, builtin-type set, then the capitalization heuristic
`identifier[0] === identifier[0].toUpperCase() && identifier[0] !== '_'`
(the first character of an identifier is a letter or an underscore, so the
test is equivalent to the first character lying in `A`–`Z`). -/
def classifyIdent (w : List Char) : SigToken :=
  if w ∈ sigKeywords then ⟨.keyword, w⟩
  else if w ∈ sigBuiltinTypes then ⟨.type, w⟩
  else if (match w with | c :: _ => 'A' ≤ c && c ≤ 'Z' | [] => false) then ⟨.type, w⟩
  else ⟨.param, w⟩

/-- Kinds of in-progress lexeme while scanning: an identifier run, a
whitespace run, or a run of unmatched (gap) characters. -/
inductive PendKind
  | ident
  | ws
  | gap
deriving DecidableEq

/-- An in-progress lexeme: its kind and the characters collected so far,
in input order. -/
structure Pend where
  kind : PendKind
  acc : List Char
deriving DecidableEq

def pendExt (k : PendKind) (c : Char) : Bool :=
  match k with
  | .ident => isIdCont c
  | .ws => isJsWs c
  | .gap => isGapChar c

/-- Close an in-progress lexeme into the token the source loop pushes:
identifier runs are classified; whitespace runs and unmatched gaps are
both pushed as `text` tokens. -/
def flushPend : Option Pend → List SigToken
  | none => []
  | some ⟨.ident, acc⟩ => [classifyIdent acc]
  | some ⟨.ws, acc⟩ => [⟨.text, acc⟩]
  | some ⟨.gap, acc⟩ => [⟨.text, acc⟩]

/-- Start a new lexeme at `c`: a punctuation character is a complete
one-character token; identifier-start, whitespace, and gap characters
open a run. -/
def startPend (c : Char) : List SigToken × Option Pend :=
  if isIdStart c then ([], some ⟨.ident, [c]⟩)
  else if isSigPunct c then ([⟨.punct, [c]⟩], none)
  else if isJsWs c then ([], some ⟨.ws, [c]⟩)
  else ([], some ⟨.gap, [c]⟩)

/-- One character of the tokenizer scan.  This is the state-machine form
of the source's global-regex loop
`/([a-zA-Z_][a-zA-Z0-9_]*)|([()[\]{}<>:,=\->])|(\s+)/g` together with its
gap handling: each alternative takes a maximal run, and maximal runs of
characters at which no alternative can start are re-emitted verbatim as a
single `text` token. -/
def tokStep : List SigToken × Option Pend → Char → List SigToken × Option Pend
  | (ts, some p), c =>
    if pendExt p.kind c then (ts, some ⟨p.kind, p.acc ++ [c]⟩)
    else
      let s := startPend c
      (ts ++ flushPend (some p) ++ s.1, s.2)
  | (ts, none), c =>
    let s := startPend c
    (ts ++ s.1, s.2)

/-- `tokenizeSignature`, over raw character lists. -/
def tokenizeSigChars (s : List Char) : List SigToken :=
  let r := s.foldl tokStep ([], none)
  r.1 ++ flushPend r.2

/-- `tokenizeSignature`. -/
def tokenizeSignature (s : String) : List SigToken :=
  tokenizeSigChars s.data

/-- Concatenation of the `value` fields of a token sequence. -/
def tokensText : List SigToken → List Char
  | [] => []
  | t :: ts => t.value ++ tokensText ts

/-- Characters held by an in-progress lexeme. -/
def pendChars : Option Pend → List Char
  | none => []
  | some p => p.acc

theorem tokensText_append (a b : List SigToken) :
    tokensText (a ++ b) = tokensText a ++ tokensText b := by
  induction a with
  | nil => rfl
  | cons t ts ih => simp [tokensText, ih]

theorem classifyIdent_value (w : List Char) : (classifyIdent w).value = w := by
  unfold classifyIdent
  split <;> [rfl; split <;> [rfl; split <;> rfl]]

theorem tokensText_flushPend (p : Option Pend) :
    tokensText (flushPend p) = pendChars p := by
  match p with
  | none => rfl
  | some ⟨.ident, acc⟩ => simp [flushPend, pendChars, tokensText, classifyIdent_value]
  | some ⟨.ws, acc⟩ => simp [flushPend, pendChars, tokensText]
  | some ⟨.gap, acc⟩ => simp [flushPend, pendChars, tokensText]

theorem startPend_chars (c : Char) :
    tokensText (startPend c).1 ++ pendChars (startPend c).2 = [c] := by
  unfold startPend
  split <;> [skip; split <;> [skip; split]] <;> simp [tokensText, pendChars]

theorem pendChars_none : pendChars none = [] := rfl

theorem tokStep_chars (ts : List SigToken) (p : Option Pend) (c : Char) :
    tokensText (tokStep (ts, p) c).1 ++ pendChars (tokStep (ts, p) c).2 =
      tokensText ts ++ pendChars p ++ [c] := by
  rcases hsp : startPend c with ⟨ns, np⟩
  have h : tokensText ns ++ pendChars np = [c] := by
    have hs := startPend_chars c
    rwa [hsp] at hs
  match p with
  | none =>
    have e : tokStep (ts, none) c = (ts ++ ns, np) := by
      simp [tokStep, hsp]
    rw [e]
    simp only [tokensText_append, pendChars_none, List.append_nil, List.append_assoc, h]
  | some q =>
    by_cases hext : pendExt q.kind c = true
    · have e : tokStep (ts, some q) c = (ts, some ⟨q.kind, q.acc ++ [c]⟩) := by
        simp [tokStep, hext]
      rw [e]
      simp [pendChars, List.append_assoc]
    · have e : tokStep (ts, some q) c = (ts ++ flushPend (some q) ++ ns, np) := by
        simp [tokStep, hext, hsp]
      rw [e]
      simp only [tokensText_append, tokensText_flushPend, List.append_assoc, h]

theorem tokenize_fold_chars (s : List Char) :
    ∀ st : List SigToken × Option Pend,
      tokensText (s.foldl tokStep st).1 ++ pendChars (s.foldl tokStep st).2 =
        tokensText st.1 ++ pendChars st.2 ++ s := by
  induction s with
  | nil => intro st; simp
  | cons c cs ih =>
    intro st
    obtain ⟨ts, p⟩ := st
    rw [List.foldl_cons, ih, tokStep_chars]
    simp

/-- C1 — Tokenizer totality (round-trip): for every input string,
concatenating the `value` fields of the token sequence produced by
`tokenizeSignature`, in order, yields exactly the input — whitespace runs,
characters outside all tokenizer classes (gaps), and trailing unmatched
text included. -/
theorem tokenizer_round_trip (s : String) :
    tokensText (tokenizeSignature s) = s.data := by
  unfold tokenizeSignature tokenizeSigChars
  rw [tokensText_append, tokensText_flushPend, tokenize_fold_chars s.data ([], none)]
  simp [tokensText, pendChars]

-- ============================================================================
-- Type registry (a JavaScript `Map<string, string>` as an ordered
-- association list with unique keys), and the path resolver
-- ============================================================================

/-- `TypeRegistry`: `Map<string, string>` modelled as an insertion-ordered
association list.  `regGet` is `Map.get`, `regHas` is `Map.has`, `regSet`
is `Map.set` (update in place if the key exists, else append). -/
abbrev TypeRegistry := List (List Char × List Char)

def regGet : TypeRegistry → List Char → Option (List Char)
  | [], _ => none
  | (k, v) :: rest, n => if k = n then some v else regGet rest n

def regHas (reg : TypeRegistry) (n : List Char) : Bool :=
  (regGet reg n).isSome

def regSet : TypeRegistry → List Char → List Char → TypeRegistry
  | [], k, v => [(k, v)]
  | (k0, v0) :: rest, k, v =>
    if k0 = k then (k0, v) :: rest else (k0, v0) :: regSet rest k v

/-- `String.prototype.split(sep)` for a one-character separator. -/
def splitOnChar (sep : Char) : List Char → List (List Char)
  | [] => [[]]
  | c :: cs =>
    match splitOnChar sep cs with
    | g :: gs => if c = sep then [] :: g :: gs else (c :: g) :: gs
    | [] => [[]]

/-- `Array.prototype.join(sep)` for a one-character separator. -/
def joinSep (sep : Char) : List (List Char) → List Char
  | [] => []
  | [g] => g
  | g :: g2 :: gs => g ++ sep :: joinSep sep (g2 :: gs)

/-- The backtracking choice made by `/^(.+)\/#(.+)$/` once it matches:
the split at the rightmost occurrence of `/#` that has a nonempty suffix
after it (the greedy `(.+)` prefers the rightmost occurrence; the prefix
may come out empty here and is rejected by `anchorMatch`). -/
def splitLastAnchor : List Char → Option (List Char × List Char)
  | [] => none
  | [_] => none
  | c :: c2 :: cs =>
    match splitLastAnchor (c2 :: cs) with
    | some (m, a) => some (c :: m, a)
    | none => if c = '/' && c2 = '#' && !cs.isEmpty then some ([], cs) else none

/-- `localPath.match(/^(.+)\/#(.+)$/)`: both `(.+)` groups must be
nonempty and consist of non-line-terminator characters (an unflagged `.`),
and the greedy first group selects the rightmost `/#` occurrence. -/
def anchorMatch (l : List Char) : Option (List Char × List Char) :=
  if l.any isLineTerm then none
  else
    match splitLastAnchor l with
    | some (m, a) => if m.isEmpty then none else some (m, a)
    | none => none

/-- `/^([A-Z][A-Za-z0-9_]*)/`: the leading capitalized identifier of a
type expression (`simpleName` in `registerType`, `outerType` in
`highlightType`). -/
def simpleTypeName : List Char → Option (List Char)
  | [] => none
  | c :: cs => if 'A' ≤ c && c ≤ 'Z' then some (c :: cs.takeWhile isIdCont) else none

/-- The external documentation root used by the `/std/` branch of
`resolveTypePath`. -/
def extStdlibRoot : List Char := "https://docs.modular.com/mojo/stdlib/".data

/-- `resolveTypePath(path, baseUrl, packageName)` from `markdown.ts`:
empty path → null; `/std/…` → external stdlib URL; `/<packageName>/…` →
same-package URL via the anchor regex or the final-segment split; anything
else → null. -/
def resolveTypePathChars (path baseUrl packageName : List Char) : Option (List Char) :=
  if path = [] then none
  else if listStartsWith path "/std/".data then
    some (extStdlibRoot ++ path.drop 5)
  else if listStartsWith path ('/' :: (packageName ++ ['/'])) then
    let localPath := path.drop ('/' :: (packageName ++ ['/'])).length
    match anchorMatch localPath with
    | some (m, a) =>
      some (baseUrl ++ packageName ++ '/' :: (m ++ "/index.html#".data ++ a))
    | none =>
      let parts := splitOnChar '/' localPath
      if 2 ≤ parts.length then
        some (baseUrl ++ packageName ++ '/' ::
          (joinSep '/' parts.dropLast ++ "/index.html#".data ++ parts.getLastD []))
      else none
  else none

/-- `resolveTypePath` over `String`. -/
def resolveTypePath (path baseUrl packageName : String) : Option String :=
  (resolveTypePathChars path.data baseUrl.data packageName.data).map fun l => ⟨l⟩

-- ============================================================================
-- `toAnchor` (nav-tree.ts) and the registry builder (transform module)
-- ============================================================================

/-- `[a-z0-9]`, the characters `toAnchor` keeps. -/
def isAnchorKeep (c : Char) : Bool :=
  ('a' ≤ c && c ≤ 'z') || ('0' ≤ c && c ≤ '9')

/-- `.replace(/[^a-z0-9]+/g, '-')`: each maximal run of non-kept
characters becomes a single hyphen (the Boolean records being inside such
a run). -/
def collapseGo : Bool → List Char → List Char
  | _, [] => []
  | inRun, c :: cs =>
    if isAnchorKeep c then c :: collapseGo false cs
    else if inRun then collapseGo true cs
    else '-' :: collapseGo true cs

/-- `.replace(/^-|-$/g, '')` removes one leading and one trailing hyphen;
this is the leading half. -/
def dropLeadDash : List Char → List Char
  | '-' :: cs => cs
  | cs => cs

/-- `toAnchor(name)` from `nav-tree.ts`: lowercase, collapse non-`[a-z0-9]`
runs to hyphens, strip a leading and a trailing hyphen.  `Char.toLower`
lowercases ASCII letters only; JavaScript's `toLowerCase` agrees on them,
and any non-ASCII character is collapsed to a hyphen by the next step
either way (the exceptional non-ASCII letters whose JavaScript lowercase
falls in `a`–`z` are not valid Mojo declaration names). -/
def toAnchorChars (n : List Char) : List Char :=
  let collapsed := collapseGo false (n.map Char.toLower)
  (dropLeadDash (dropLeadDash collapsed).reverse).reverse

/-- `toAnchor` over `String`. -/
def toAnchor (n : String) : String :=
  ⟨toAnchorChars n.data⟩

/-- `registerType(typeName, path, packageName, baseUrl, registry)`: if the
hint resolves, register the leading capitalized identifier of `typeName`
under the resolved URL unless that name is already present. -/
def registerType (typeName : List Char) (path : Option (List Char))
    (packageName baseUrl : List Char) (reg : TypeRegistry) : TypeRegistry :=
  match path with
  | none => reg
  | some p =>
    if typeName = [] || p = [] then reg
    else
      match resolveTypePathChars p baseUrl packageName with
      | none => reg
      | some href =>
        match simpleTypeName typeName with
        | none => reg
        | some n => if regHas reg n then reg else regSet reg n href

/-- `registerLocalType(typeName, modulePath, packageName, baseUrl,
registry)`: synthesize a same-package URL for a pathless local
declaration, unless the name is already present. -/
def registerLocalType (typeName modulePath packageName baseUrl : List Char)
    (reg : TypeRegistry) : TypeRegistry :=
  if typeName = [] || regHas reg typeName then reg
  else
    regSet reg typeName
      (baseUrl ++ packageName ++ '/' ::
        (modulePath ++ "/index.html#".data ++ toAnchorChars typeName))

/-- One registration attempt performed somewhere inside
`buildTypeRegistry`'s traversal (`scanPackageForTypes` /
`scanModuleForTypes` / `scanFunctionForTypes` only ever call these two
functions on the shared registry). -/
inductive RegEvent
  | viaPath (typeName : List Char) (path : Option (List Char))
  | localDecl (typeName : List Char) (modulePath : List Char)

def applyEvent (packageName baseUrl : List Char) (reg : TypeRegistry) :
    RegEvent → TypeRegistry
  | .viaPath t p => registerType t p packageName baseUrl reg
  | .localDecl t m => registerLocalType t m packageName baseUrl reg

/-- `buildTypeRegistry`, abstracted over the sequence of registration
attempts its single traversal performs, starting from the empty map. -/
def buildTypeRegistry (packageName baseUrl : List Char)
    (evs : List RegEvent) : TypeRegistry :=
  evs.foldl (applyEvent packageName baseUrl) []

def orO {α : Type} : Option α → Option α → Option α
  | some v, _ => some v
  | none, b => b

/-- The URL a single registration attempt would produce for the simple
name `n`, if any — written from the claim: an origin-hint attempt yields
the resolved URL when the hint resolves and the occurrence's leading
capitalized identifier is `n`; a local-declaration attempt yields the
synthesized same-package URL when the declared name is `n`. -/
def attemptUrl (packageName baseUrl : List Char) (ev : RegEvent)
    (n : List Char) : Option (List Char) :=
  match ev with
  | .viaPath t p =>
    match p with
    | none => none
    | some p =>
      if t = [] || p = [] then none
      else
        match resolveTypePathChars p baseUrl packageName with
        | none => none
        | some href =>
          match simpleTypeName t with
          | none => none
          | some k => if k = n then some href else none
  | .localDecl t m =>
    if t = [] then none
    else if t = n then
      some (baseUrl ++ packageName ++ '/' ::
        (m ++ "/index.html#".data ++ toAnchorChars t))
    else none

/-- The URL produced by the first registration attempt for `n` that
yields one. -/
def firstYield (packageName baseUrl : List Char) :
    List RegEvent → List Char → Option (List Char)
  | [], _ => none
  | ev :: evs, n =>
    orO (attemptUrl packageName baseUrl ev n) (firstYield packageName baseUrl evs n)

theorem orO_none {α : Type} (a : Option α) : orO a none = a := by
  cases a <;> rfl

theorem orO_assoc {α : Type} (a b c : Option α) :
    orO (orO a b) c = orO a (orO b c) := by
  cases a <;> rfl

theorem regGet_set (reg : TypeRegistry) (k v n : List Char) :
    regGet (regSet reg k v) n = if k = n then some v else regGet reg n := by
  induction reg with
  | nil => simp [regSet, regGet]
  | cons kv rest ih =>
    obtain ⟨k0, v0⟩ := kv
    by_cases h0 : k0 = k
    · subst h0
      by_cases hn : k0 = n <;> simp [regSet, regGet, hn]
    · by_cases hn : k0 = n
      · subst hn
        have : ¬k = k0 := fun h => h0 h.symm
        simp [regSet, regGet, h0, this]
      · simp [regSet, regGet, h0, hn, ih]

theorem regGet_of_regHas_false (reg : TypeRegistry) (n : List Char)
    (h : regHas reg n = false) : regGet reg n = none := by
  unfold regHas at h
  cases hg : regGet reg n with
  | none => rfl
  | some v => rw [hg] at h; simp at h

theorem applyEvent_get (packageName baseUrl : List Char) (reg : TypeRegistry)
    (ev : RegEvent) (n : List Char) :
    regGet (applyEvent packageName baseUrl reg ev) n =
      orO (regGet reg n) (attemptUrl packageName baseUrl ev n) := by
  match ev with
  | .viaPath t p =>
    match p with
    | none => simp [applyEvent, registerType, attemptUrl, orO_none]
    | some p =>
      by_cases hemp : t = [] || p = []
      · simp [applyEvent, registerType, attemptUrl, hemp, orO_none]
      · match hres : resolveTypePathChars p baseUrl packageName with
        | none => simp [applyEvent, registerType, attemptUrl, hemp, hres, orO_none]
        | some href =>
          match hstn : simpleTypeName t with
          | none => simp [applyEvent, registerType, attemptUrl, hemp, hres, hstn, orO_none]
          | some k =>
            by_cases hhas : regHas reg k = true
            · have hk : ∃ u, regGet reg k = some u := by
                unfold regHas at hhas
                exact Option.isSome_iff_exists.mp hhas
              obtain ⟨u, hu⟩ := hk
              by_cases hkn : k = n
              · subst hkn
                simp [applyEvent, registerType, attemptUrl, hemp, hres, hstn, hhas, hu, orO]
              · simp [applyEvent, registerType, attemptUrl, hemp, hres, hstn, hhas, hkn, orO_none]
            · have hhf : regHas reg k = false := by
                cases h : regHas reg k
                · rfl
                · exact absurd h hhas
              by_cases hkn : k = n
              · subst hkn
                have hnone := regGet_of_regHas_false reg k hhf
                simp [applyEvent, registerType, attemptUrl, hemp, hres, hstn, hhf, regGet_set,
                  hnone, orO]
              · simp [applyEvent, registerType, attemptUrl, hemp, hres, hstn, hhf, regGet_set,
                  hkn, orO_none]
  | .localDecl t m =>
    by_cases hemp : t = []
    · simp [applyEvent, registerLocalType, attemptUrl, hemp, orO_none]
    · by_cases hhas : regHas reg t = true
      · have hk : ∃ u, regGet reg t = some u := by
          unfold regHas at hhas
          exact Option.isSome_iff_exists.mp hhas
        obtain ⟨u, hu⟩ := hk
        by_cases htn : t = n
        · subst htn
          simp [applyEvent, registerLocalType, attemptUrl, hemp, hhas, hu, orO]
        · simp [applyEvent, registerLocalType, attemptUrl, hemp, hhas, htn, orO_none]
      · have hhf : regHas reg t = false := by
          cases h : regHas reg t
          · rfl
          · exact absurd h hhas
        by_cases htn : t = n
        · subst htn
          have hnone := regGet_of_regHas_false reg t hhf
          simp [applyEvent, registerLocalType, attemptUrl, hemp, hhf, regGet_set, hnone, orO]
        · simp [applyEvent, registerLocalType, attemptUrl, hemp, hhf, regGet_set, htn, orO_none]

theorem foldl_applyEvent_get (packageName baseUrl : List Char)
    (evs : List RegEvent) :
    ∀ (reg : TypeRegistry) (n : List Char),
      regGet (evs.foldl (applyEvent packageName baseUrl) reg) n =
        orO (regGet reg n) (firstYield packageName baseUrl evs n) := by
  induction evs with
  | nil => intro reg n; simp [firstYield, orO_none]
  | cons ev evs ih =>
    intro reg n
    rw [List.foldl_cons, ih, applyEvent_get, firstYield, orO_assoc]

/-- C2 — Registry first-write-wins: over any sequence of registration
attempts performed by `buildTypeRegistry`'s traversal, the URL stored for
a simple type name `n` is the one produced by the first attempt for `n`
that yields a URL (an origin hint resolved by `registerType`, or a
synthesized local-declaration URL from `registerLocalType`); every later
attempt for `n` leaves the stored URL unchanged. -/
theorem registry_first_write_wins (packageName baseUrl : List Char)
    (evs : List RegEvent) (n : List Char) :
    regGet (buildTypeRegistry packageName baseUrl evs) n =
      firstYield packageName baseUrl evs n := by
  unfold buildTypeRegistry
  rw [foldl_applyEvent_get]
  simp [regGet, orO]

-- ============================================================================
-- Facts about the anchor regex and the path split (for the same-package
-- branch of `resolveTypePath`)
-- ============================================================================

theorem listStartsWith_append (p t : List Char) :
    listStartsWith (p ++ t) p = true := by
  induction p with
  | nil => cases t <;> rfl
  | cons c cs ih => simp [listStartsWith, ih]

theorem splitLastAnchor_none_of_no_slash (l : List Char) (h : '/' ∉ l) :
    splitLastAnchor l = none := by
  induction l with
  | nil => rfl
  | cons c tail ih =>
    cases tail with
    | nil => rfl
    | cons c2 cs =>
      have h2 : '/' ∉ (c2 :: cs) := fun hm => h (List.mem_cons_of_mem _ hm)
      have hc : ¬(c = '/') := fun hc => h (by simp [hc])
      simp only [splitLastAnchor, ih h2, hc]
      simp

theorem splitLastAnchor_none_of_no_hash (l : List Char) (h : '#' ∉ l) :
    splitLastAnchor l = none := by
  induction l with
  | nil => rfl
  | cons c tail ih =>
    cases tail with
    | nil => rfl
    | cons c2 cs =>
      have h2 : '#' ∉ (c2 :: cs) := fun hm => h (List.mem_cons_of_mem _ hm)
      have hc : ¬(c2 = '#') := fun hc => h (by simp [hc])
      simp only [splitLastAnchor, ih h2, hc]
      simp

theorem splitLastAnchor_append (m a : List Char) (ha : a ≠ []) (hs : '/' ∉ a) :
    splitLastAnchor (m ++ '/' :: '#' :: a) = some (m, a) := by
  induction m with
  | nil =>
    have h2 : splitLastAnchor ('#' :: a) = none := by
      apply splitLastAnchor_none_of_no_slash
      intro hm
      rcases List.mem_cons.mp hm with h | h
      · exact absurd h (by decide)
      · exact hs h
    have hne : a.isEmpty = false := by
      cases a with
      | nil => exact absurd rfl ha
      | cons x xs => rfl
    simp only [List.nil_append, splitLastAnchor, h2, hne]
    simp
  | cons c m2 ih =>
    cases hm : m2 ++ '/' :: '#' :: a with
    | nil => exact absurd hm (by simp)
    | cons c2 cs =>
      have hrec : splitLastAnchor (c2 :: cs) = some (m2, a) := by
        rw [← hm]; exact ih
      simp only [List.cons_append, hm, splitLastAnchor, hrec]

theorem splitOnChar_ne_nil (sep : Char) (l : List Char) :
    splitOnChar sep l ≠ [] := by
  cases l with
  | nil => simp [splitOnChar]
  | cons c cs =>
    simp only [splitOnChar]
    cases h : splitOnChar sep cs with
    | nil => simp
    | cons g gs =>
      by_cases hc : c = sep <;> simp [hc]

theorem splitOnChar_of_no_sep (sep : Char) (s : List Char) (h : sep ∉ s) :
    splitOnChar sep s = [s] := by
  induction s with
  | nil => rfl
  | cons c cs ih =>
    have h2 : sep ∉ cs := fun hm => h (List.mem_cons_of_mem _ hm)
    have hc : ¬(c = sep) := fun hc => h (by simp [← hc])
    simp [splitOnChar, ih h2, hc]

theorem splitOnChar_append_sep (sep : Char) (s t : List Char) (h : sep ∉ s) :
    splitOnChar sep (s ++ sep :: t) = s :: splitOnChar sep t := by
  induction s with
  | nil =>
    simp only [List.nil_append, splitOnChar]
    cases hg : splitOnChar sep t with
    | nil => exact absurd hg (splitOnChar_ne_nil sep t)
    | cons g gs => simp
  | cons c cs ih =>
    have h2 : sep ∉ cs := fun hm => h (List.mem_cons_of_mem _ hm)
    have hc : ¬(c = sep) := fun hc => h (by simp [← hc])
    have hr := ih h2
    rw [List.cons_append]
    simp only [splitOnChar]
    rw [hr]
    simp [hc]

theorem splitOnChar_joinSep (sep : Char) (segs : List (List Char))
    (hne : segs ≠ []) (h : ∀ g ∈ segs, sep ∉ g) :
    splitOnChar sep (joinSep sep segs) = segs := by
  induction segs with
  | nil => exact absurd rfl hne
  | cons g gs ih =>
    cases gs with
    | nil =>
      simp only [joinSep]
      exact splitOnChar_of_no_sep sep g (h g (by simp))
    | cons g2 gs2 =>
      have hg : sep ∉ g := h g (by simp)
      have hrest : ∀ x ∈ g2 :: gs2, sep ∉ x := fun x hx => h x (by simp [hx])
      simp only [joinSep, splitOnChar_append_sep sep _ _ hg,
        ih (by simp) hrest]

theorem mem_joinSep (sep : Char) (segs : List (List Char)) (c : Char)
    (hc : c ∈ joinSep sep segs) : c = sep ∨ ∃ g ∈ segs, c ∈ g := by
  induction segs with
  | nil => exact absurd hc (by simp [joinSep])
  | cons g gs ih =>
    cases gs with
    | nil =>
      right
      exact ⟨g, by simp, by simpa [joinSep] using hc⟩
    | cons g2 gs2 =>
      simp only [joinSep, List.mem_append, List.mem_cons] at hc
      rcases hc with h | h | h
      · right; exact ⟨g, by simp, h⟩
      · left; exact h
      · rcases ih h with h | ⟨x, hx, hcx⟩
        · left; exact h
        · right; exact ⟨x, by simp [hx], hcx⟩

/-- C3 (counterexample) — the claim quantifies over every hint beginning
with `"/" + packageName + "/"`, but for the package name `"std"` such a
hint also begins with the external marker `/std/`, which
`resolveTypePath` checks first: the hint `/std/types/#Result` with
package name `std` resolves to the external stdlib URL, not to the
same-package URL shape the claim requires. -/
theorem same_package_hint_std_collision :
    listStartsWith "/std/types/#Result".data ('/' :: ("std".data ++ ['/'])) = true ∧
    resolveTypePathChars "/std/types/#Result".data "/".data "std".data =
      some "https://docs.modular.com/mojo/stdlib/types/#Result".data ∧
    resolveTypePathChars "/std/types/#Result".data "/".data "std".data ≠
      some "/std/types/index.html#Result".data := by
  exact ⟨by decide, by decide, by decide⟩

/-- C3 (amended) — Same-package origin-hint resolution, for hints that do
not simultaneously match the external `/std/` marker (the marker is
checked first, so the claim as stated fails for package name `"std"`):
stripping the `"/" + packageName + "/"` marker, (a) a remainder of shape
`<modulePath>/#<TypeName>` resolves to
`baseUrl + packageName + "/" + modulePath + "/index.html#" + TypeName`;
(b) a remainder of two or more `/`-separated segments resolves to the
same URL shape with the final segment as the anchor and the preceding
segments as the module path; (c) a single-segment remainder (matching
neither recognized shape) yields null. -/
theorem same_package_hint_resolution :
    (∀ (packageName baseUrl m a : List Char),
      listStartsWith (('/' :: (packageName ++ ['/'])) ++ (m ++ '/' :: '#' :: a))
          "/std/".data = false →
      m ≠ [] → a ≠ [] → '/' ∉ a →
      (∀ c ∈ m, isLineTerm c = false) → (∀ c ∈ a, isLineTerm c = false) →
      resolveTypePathChars (('/' :: (packageName ++ ['/'])) ++ (m ++ '/' :: '#' :: a))
          baseUrl packageName =
        some (baseUrl ++ packageName ++ '/' :: (m ++ "/index.html#".data ++ a))) ∧
    (∀ (packageName baseUrl : List Char) (segs : List (List Char)),
      listStartsWith (('/' :: (packageName ++ ['/'])) ++ joinSep '/' segs)
          "/std/".data = false →
      2 ≤ segs.length →
      (∀ g ∈ segs, '/' ∉ g) → (∀ g ∈ segs, '#' ∉ g) →
      resolveTypePathChars (('/' :: (packageName ++ ['/'])) ++ joinSep '/' segs)
          baseUrl packageName =
        some (baseUrl ++ packageName ++ '/' ::
          (joinSep '/' segs.dropLast ++ "/index.html#".data ++ segs.getLastD []))) ∧
    (∀ (packageName baseUrl seg : List Char),
      listStartsWith (('/' :: (packageName ++ ['/'])) ++ seg) "/std/".data = false →
      '/' ∉ seg → '#' ∉ seg →
      resolveTypePathChars (('/' :: (packageName ++ ['/'])) ++ seg)
          baseUrl packageName = none) := by
  refine ⟨?_, ?_, ?_⟩
  · intro packageName baseUrl m a hstd hm ha hsl hltm hlta
    have hmark := listStartsWith_append ('/' :: (packageName ++ ['/']))
      (m ++ '/' :: '#' :: a)
    have hdrop := List.drop_left ('/' :: (packageName ++ ['/']))
      (m ++ '/' :: '#' :: a)
    have hterm : (m ++ '/' :: '#' :: a).any isLineTerm = false := by
      rw [List.any_eq_false]
      intro c hc
      rcases List.mem_append.mp hc with h | h
      · simp [hltm c h]
      · rcases List.mem_cons.mp h with h | h
        · subst h; decide
        · rcases List.mem_cons.mp h with h | h
          · subst h; decide
          · simp [hlta c h]
    have hanchor : anchorMatch (m ++ '/' :: '#' :: a) = some (m, a) := by
      unfold anchorMatch
      rw [hterm, splitLastAnchor_append m a ha hsl]
      have : m.isEmpty = false := by
        cases m with
        | nil => exact absurd rfl hm
        | cons x xs => rfl
      simp [this]
    simp only [resolveTypePathChars, hstd, hmark, hdrop, hanchor]
    simp
  · intro packageName baseUrl segs hstd hlen hsl hsh
    have hmark := listStartsWith_append ('/' :: (packageName ++ ['/']))
      (joinSep '/' segs)
    have hdrop := List.drop_left ('/' :: (packageName ++ ['/'])) (joinSep '/' segs)
    have hsplit : splitLastAnchor (joinSep '/' segs) = none := by
      apply splitLastAnchor_none_of_no_hash
      intro hmem
      rcases mem_joinSep '/' segs '#' hmem with h | ⟨g, hg, hcg⟩
      · exact absurd h (by decide)
      · exact hsh g hg hcg
    have hanchor : anchorMatch (joinSep '/' segs) = none := by
      unfold anchorMatch
      rw [hsplit]
      split <;> rfl
    have hne : segs ≠ [] := by
      intro h
      rw [h] at hlen
      simp at hlen
    have hparts := splitOnChar_joinSep '/' segs hne hsl
    simp only [resolveTypePathChars, hstd, hmark, hdrop, hanchor, hparts, hlen]
    simp [hlen]
  · intro packageName baseUrl seg hstd hsl hsh
    have hmark := listStartsWith_append ('/' :: (packageName ++ ['/'])) seg
    have hdrop := List.drop_left ('/' :: (packageName ++ ['/'])) seg
    have hsplit : splitLastAnchor seg = none :=
      splitLastAnchor_none_of_no_slash seg hsl
    have hanchor : anchorMatch seg = none := by
      unfold anchorMatch
      rw [hsplit]
      split <;> rfl
    have hparts := splitOnChar_of_no_sep '/' seg hsl
    simp only [resolveTypePathChars, hstd, hmark, hdrop, hanchor, hparts]
    simp

/-- C3 (witness) — the claim's own example: hint `/mypkg/types/#Result`,
package name `mypkg`, base URL `/` resolves to
`/mypkg/types/index.html#Result`. -/
theorem same_package_hint_resolution_witness :
    resolveTypePathChars "/mypkg/types/#Result".data "/".data "mypkg".data =
      some "/mypkg/types/index.html#Result".data := by
  have h := same_package_hint_resolution.1 "mypkg".data "/".data "types".data
    "Result".data (by decide) (by decide) (by decide) (by decide)
    (by decide) (by decide)
  have e1 : "/mypkg/types/#Result".data =
      ('/' :: ("mypkg".data ++ ['/'])) ++ ("types".data ++ '/' :: '#' :: "Result".data) := by
    decide
  have e2 : "/mypkg/types/index.html#Result".data =
      "/".data ++ "mypkg".data ++ '/' ::
        ("types".data ++ "/index.html#".data ++ "Result".data) := by
    decide
  rw [e1, e2]
  exact h

-- ============================================================================
-- `inferStdlibUrl`: the naming-convention resolver
-- ============================================================================

def STDLIB_BASE : List Char := "https://docs.modular.com/mojo/stdlib".data

/-- The alternation of `/^(Scalar|SIMD|Int8|…|Float64)$/`: the
numeric/bit-width family names that share the simd page. -/
def simdFamilyNames : List (List Char) :=
  ["Scalar", "SIMD", "Int8", "Int16", "Int32", "Int64", "UInt8", "UInt16",
   "UInt32", "UInt64", "Float16", "Float32", "Float64"].map String.data

/-- The `builtinSimple` record of core builtin types. -/
def builtinSimple : List (List Char × List Char) :=
  [("Int", "builtin/int/Int"), ("UInt", "builtin/int/UInt"),
   ("Bool", "builtin/bool/Bool"), ("String", "collections/string/string/String"),
   ("StringLiteral", "builtin/string_literal/StringLiteral"),
   ("StringSlice", "utils/string_slice/StringSlice"),
   ("Error", "builtin/error/Error"), ("NoneType", "builtin/none/NoneType"),
   ("Tuple", "builtin/tuple/"), ("List", "collections/list/List"),
   ("Dict", "collections/dict/Dict"), ("Optional", "collections/optional/Optional"),
   ("Span", "memory/span/Span"),
   ("UnsafePointer", "memory/unsafe_pointer/UnsafePointer"),
   ("Variant", "utils/variant/Variant")].map fun p => (p.1.data, p.2.data)

/-- The `traits` record of common trait names. -/
def traitsTable : List (List Char × List Char) :=
  [("Sized", "builtin/len/Sized"), ("Stringable", "builtin/str/Stringable"),
   ("Representable", "builtin/repr/Representable"),
   ("Writable", "utils/write/Writable"), ("Writer", "utils/write/Writer"),
   ("Formattable", "utils/format/Formattable"),
   ("Copyable", "builtin/value/Copyable"), ("Movable", "builtin/value/Movable"),
   ("ExplicitlyCopyable", "builtin/value/ExplicitlyCopyable"),
   ("CollectionElement", "builtin/value/CollectionElement"),
   ("EqualityComparable", "builtin/equality_comparable/EqualityComparable"),
   ("Hashable", "builtin/hash/Hashable"), ("Intable", "builtin/int/Intable"),
   ("Boolable", "builtin/bool/Boolable"), ("AnyType", "builtin/anytype/AnyType"),
   ("Defaultable", "builtin/value/Defaultable")].map fun p => (p.1.data, p.2.data)

/-- The property names an object literal inherits from
`Object.prototype` (ECMA-262 §20.2.3 plus the Annex B accessors and
legacy methods, all implemented by Node): the JavaScript `in` operator
traverses the prototype chain, so `name in record` is also true for
these names even though the record holds no own entry for them. -/
def objectProtoKeys : List (List Char) :=
  ["constructor", "hasOwnProperty", "isPrototypeOf", "propertyIsEnumerable",
   "toLocaleString", "toString", "valueOf", "__defineGetter__",
   "__defineSetter__", "__lookupGetter__", "__lookupSetter__",
   "__proto__"].map String.data

/-- Modelled from host behavior: the template-literal stringification of
the inherited `Object.prototype` member named `k`, as read through
`record[k]` when the record has no own entry.  `__proto__` is an accessor
returning the prototype object (`[object Object]`); `constructor` is the
`Object` constructor; the rest are built-in functions, printed by V8 (the
engine under the repo's Node/vitest toolchain) as
`function <name>() \x7B [native code] \x7D`.  No settled theorem depends
on the exact text — only on it being a non-null string. -/
def protoPropText (k : List Char) : List Char :=
  if k = "__proto__".data then "[object Object]".data
  else if k = "constructor".data then
    "function Object() \x7B [native code] \x7D".data
  else "function ".data ++ k ++ "() \x7B [native code] \x7D".data

/-- The JavaScript `name in record` test for an object literal: an own
key, or a key inherited from `Object.prototype`. -/
def jsInTable (tbl : List (List Char × List Char)) (k : List Char) : Bool :=
  (regGet tbl k).isSome || k ∈ objectProtoKeys

/-- `record[name]` as read by the return statements of `inferStdlibUrl`:
the own entry when present, otherwise (reachable only when the `in` test
passed via the prototype chain) the stringified inherited member. -/
def jsIndexTable (tbl : List (List Char × List Char)) (k : List Char) : List Char :=
  match regGet tbl k with
  | some v => v
  | none => protoPropText k

/-- `inferStdlibUrl(typeName)` from `markdown.ts`: simd family regex, the
`DType` special case, then `typeName in builtinSimple` and
`typeName in traits` with template-literal URL building, null otherwise.
The `in` tests include the `Object.prototype` keys, so for e.g.
`toString` the function returns `STDLIB_BASE + "/" + <stringified
inherited member>` — a garbage URL — rather than null. -/
def inferStdlibUrl (typeName : List Char) : Option (List Char) :=
  if typeName ∈ simdFamilyNames then some (STDLIB_BASE ++ "/builtin/simd/".data)
  else if typeName = "DType".data then
    some (STDLIB_BASE ++ "/builtin/dtype/DType".data)
  else if jsInTable builtinSimple typeName then
    some (STDLIB_BASE ++ '/' :: jsIndexTable builtinSimple typeName)
  else if jsInTable traitsTable typeName then
    some (STDLIB_BASE ++ '/' :: jsIndexTable traitsTable typeName)
  else none

/-- The table the claim describes (spec-side definition, for comparison
с `inferStdlibUrl`): every numeric/bit-width family member maps to the one
shared simd URL, `DType` and every fixed builtin-type and trait entry to
its individual URL; a name outside the table has no entry. -/
def specStdlibTable : List (List Char × List Char) :=
  simdFamilyNames.map (fun k => (k, STDLIB_BASE ++ "/builtin/simd/".data)) ++
  [("DType".data, STDLIB_BASE ++ "/builtin/dtype/DType".data)] ++
  builtinSimple.map (fun p => (p.1, STDLIB_BASE ++ '/' :: p.2)) ++
  traitsTable.map (fun p => (p.1, STDLIB_BASE ++ '/' :: p.2))

theorem regGet_append (a b : TypeRegistry) (n : List Char) :
    regGet (a ++ b) n = orO (regGet a n) (regGet b n) := by
  induction a with
  | nil => simp [regGet, orO]
  | cons kv rest ih =>
    obtain ⟨k, v⟩ := kv
    by_cases h : k = n <;> simp [regGet, h, ih, orO]

theorem regGet_map_const (ns : List (List Char)) (u n : List Char) :
    regGet (ns.map fun k => (k, u)) n = if n ∈ ns then some u else none := by
  induction ns with
  | nil => simp [regGet]
  | cons k ks ih =>
    by_cases h : k = n
    · subst h; simp [regGet]
    · have : ¬(n = k) := fun hh => h hh.symm
      simp [regGet, h, ih, this]

theorem regGet_map_stdlib (t : List (List Char × List Char)) (n : List Char) :
    regGet (t.map fun p => (p.1, STDLIB_BASE ++ '/' :: p.2)) n =
      Option.map (fun x => STDLIB_BASE ++ '/' :: x) (regGet t n) := by
  induction t with
  | nil => simp [regGet]
  | cons kv rest ih =>
    obtain ⟨k, v⟩ := kv
    by_cases h : k = n <;> simp [regGet, h, ih]

/-- C9 (counterexample) — the claim's "returns null for every other
name" is false of the program: `toString` is outside the claim's table
(not a family member, not a builtin or trait entry), yet
`typeName in builtinSimple` is true for it through the prototype chain,
so `inferStdlibUrl` returns the garbage URL built from the stringified
inherited `Object.prototype.toString`, not null. -/
theorem infer_stdlib_proto_counterexample :
    "toString".data ∉ specStdlibTable.map Prod.fst ∧
    inferStdlibUrl "toString".data ≠ none ∧
    inferStdlibUrl "toString".data =
      some (STDLIB_BASE ++ '/' :: protoPropText "toString".data) :=
  ⟨by decide, by decide, by decide⟩

/-- C9 (amended) — Naming-convention resolver: for every name that is
not an inherited `Object.prototype` property name, `inferStdlibUrl`
behaves exactly as lookup in the claim's table — every numeric/bit-width
family member (`Scalar`, `SIMD`, `Int8`–`Int64`, `UInt8`–`UInt64`,
`Float16`–`Float64`) maps to the single shared URL
`https://docs.modular.com/mojo/stdlib/builtin/simd/`, each fixed
builtin-type and trait entry to its individual URL, and every other such
name to null.  For the inherited `Object.prototype` names themselves
(`toString`, `valueOf`, `hasOwnProperty`, …) the `in` test passes via the
prototype chain and the function returns the non-null garbage URL
`STDLIB_BASE + "/" + <stringified inherited member>` instead of null. -/
theorem infer_stdlib_table :
    (∀ n : List Char, n ∉ objectProtoKeys →
      inferStdlibUrl n = regGet specStdlibTable n) ∧
    (∀ n ∈ objectProtoKeys,
      inferStdlibUrl n = some (STDLIB_BASE ++ '/' :: protoPropText n)) := by
  constructor
  · intro n hn
    have hjb : jsInTable builtinSimple n = (regGet builtinSimple n).isSome := by
      simp [jsInTable, hn]
    have hjt : jsInTable traitsTable n = (regGet traitsTable n).isSome := by
      simp [jsInTable, hn]
    unfold inferStdlibUrl specStdlibTable
    rw [regGet_append, regGet_append, regGet_append, regGet_map_const,
      regGet_map_stdlib, regGet_map_stdlib, hjb, hjt]
    by_cases h1 : n ∈ simdFamilyNames
    · simp [h1, orO]
    · by_cases h2 : n = "DType".data
      · subst h2
        simp [h1, regGet, orO]
      · have h2s : ¬("DType".data = n) := fun h => h2 h.symm
        have hD : regGet [("DType".data, STDLIB_BASE ++ "/builtin/dtype/DType".data)] n =
            none := by
          simp [regGet, h2s]
        rw [hD]
        cases hb : regGet builtinSimple n <;>
          cases ht : regGet traitsTable n <;>
            simp [h1, h2, hb, ht, orO, jsIndexTable]
  · decide

/-- C9 (witness) — the amended resolver law at concrete names: the table
equality at `SIMD`, and the prototype-chain garbage URL at `toString`. -/
theorem infer_stdlib_table_witness :
    inferStdlibUrl "SIMD".data = regGet specStdlibTable "SIMD".data ∧
    inferStdlibUrl "toString".data =
      some (STDLIB_BASE ++ '/' :: protoPropText "toString".data) :=
  ⟨infer_stdlib_table.1 "SIMD".data (by decide),
   infer_stdlib_table.2 "toString".data (by decide)⟩

-- ============================================================================
-- `escapeHtml` and the link-aware highlighter
-- ============================================================================

/-- One global single-character `String.prototype.replace` pass. -/
def replaceAllChar (target : Char) (repl : List Char) : List Char → List Char
  | [] => []
  | c :: cs => (if c = target then repl else [c]) ++ replaceAllChar target repl cs

/-- The single-quote character (written by code point). -/
def quoteChar : Char := Char.ofNat 39

/-- `escapeHtml(text)`: the source's five sequential global replaces, in
source order (`&` first, so later replacements' ampersands are not
re-escaped). -/
def escapeHtml (s : List Char) : List Char :=
  replaceAllChar quoteChar "&#039;".data
    (replaceAllChar '"' "&quot;".data
      (replaceAllChar '>' "&gt;".data
        (replaceAllChar '<' "&lt;".data
          (replaceAllChar '&' "&amp;".data s))))

/-- `<span class="{cls}">{inner}</span>`, the repeated span pattern of
`highlightSignature`. -/
def spanWrap (cls inner : List Char) : List Char :=
  "<span class=\"".data ++ cls ++ "\">".data ++ inner ++ "</span>".data

/-- The per-token rendering switch of `highlightSignature`: `type` tokens
consult the registry then `inferStdlibUrl` (`??`), the other kinds are
styled unlinked spans, `text` tokens are escaped verbatim. -/
def renderToken (typeRegistry : Option TypeRegistry) (t : SigToken) : List Char :=
  match t.kind with
  | .keyword => spanWrap "sig-keyword".data (escapeHtml t.value)
  | .name => spanWrap "sig-name".data (escapeHtml t.value)
  | .type =>
    let typeSpan := spanWrap "sig-type".data (escapeHtml t.value)
    match typeRegistry with
    | some reg =>
      match orO (regGet reg t.value) (inferStdlibUrl t.value) with
      | some href =>
        "<a href=\"".data ++ escapeHtml href ++ "\" class=\"type-link\">".data ++
          typeSpan ++ "</a>".data
      | none => typeSpan
    | none => typeSpan
  | .param => spanWrap "sig-param".data (escapeHtml t.value)
  | .punct => spanWrap "sig-punct".data (escapeHtml t.value)
  | .text => escapeHtml t.value

/-- `highlightSignature(signature, typeRegistry?)` over character lists. -/
def highlightSignatureChars (sig : List Char) (typeRegistry : Option TypeRegistry) :
    List Char :=
  concatChunks ((tokenizeSigChars sig).map (renderToken typeRegistry))

/-- `highlightSignature` over `String`. -/
def highlightSignature (sig : String) (typeRegistry : Option TypeRegistry) : String :=
  ⟨highlightSignatureChars sig.data typeRegistry⟩

/-- JavaScript `x || dflt` for optional strings (an empty string is
falsy). -/
def jsOrDefault (o : Option (List Char)) (dflt : List Char) : List Char :=
  match o with
  | some s => if s = [] then dflt else s
  | none => dflt

/-- `highlightType(type, path?, baseUrl?, packageName?, typeRegistry?)`:
copy the shared registry, overwrite the entry for the expression's
leading capitalized identifier with the resolved per-occurrence hint (if
any), and delegate to `highlightSignature`. -/
def highlightTypeChars (type : List Char) (path : Option (List Char))
    (baseUrl packageName : Option (List Char))
    (typeRegistry : Option TypeRegistry) : List Char :=
  let merged0 : TypeRegistry := typeRegistry.getD []
  let merged : TypeRegistry :=
    match path with
    | none => merged0
    | some p =>
      if p = [] then merged0
      else
        match resolveTypePathChars p (jsOrDefault baseUrl "/".data)
            (jsOrDefault packageName []) with
        | some href =>
          match simpleTypeName type with
          | some outer => regSet merged0 outer href
          | none => merged0
        | none => merged0
  highlightSignatureChars type (some merged)

set_option maxRecDepth 8192 in
/-- C6 — Per-component linking: highlighting `List[Item]` against a
registry holding both `List` and `Item` produces two separate anchors,
one wrapping only the `List` token with List's URL and one wrapping only
the `Item` token with Item's URL, with `[` and `]` rendered outside both
anchors — never a single anchor spanning the whole expression. -/
theorem per_component_linking :
    highlightSignature "List[Item]"
      (some [("List".data, "https://ext/builtin/list/List".data),
             ("Item".data, "https://site/pkg/types/index.html#Item".data)]) =
      "<a href=\"https://ext/builtin/list/List\" class=\"type-link\"><span class=\"sig-type\">List</span></a><span class=\"sig-punct\">[</span><a href=\"https://site/pkg/types/index.html#Item\" class=\"type-link\"><span class=\"sig-type\">Item</span></a><span class=\"sig-punct\">]</span>" := by
  decide

/-- C7 — Total, non-raising degradation: the highlighter and resolver are
total functions of their inputs (the model returns plain values, mirroring
source code with no throwing operation); a `type` token whose name has no
registry entry and no naming-convention match renders as a styled span
with no surrounding anchor (concretely so for `Frobnicator`); and a hint
matching neither the external-marker shape nor the current-package-marker
shape resolves to null. -/
theorem total_degradation :
    (∀ (reg : TypeRegistry) (t : List Char),
      regGet reg t = none → inferStdlibUrl t = none →
      renderToken (some reg) ⟨.type, t⟩ = spanWrap "sig-type".data (escapeHtml t)) ∧
    highlightSignature "Frobnicator" (some []) =
      "<span class=\"sig-type\">Frobnicator</span>" ∧
    (∀ (path baseUrl packageName : List Char),
      listStartsWith path "/std/".data = false →
      listStartsWith path ('/' :: (packageName ++ ['/'])) = false →
      resolveTypePathChars path baseUrl packageName = none) := by
  refine ⟨?_, by decide, ?_⟩
  · intro reg t hr hi
    simp [renderToken, hr, hi, orO]
  · intro path baseUrl packageName h1 h2
    by_cases hp : path = []
    · simp [resolveTypePathChars, hp]
    · simp [resolveTypePathChars, hp, h1, h2]

/-- C7 (witness) — the degradation conjuncts instantiated: an
unregistered, unrecognized name renders unlinked, and a markerless hint
resolves to null. -/
theorem total_degradation_witness :
    renderToken (some []) ⟨.type, "Frobnicator".data⟩ =
      spanWrap "sig-type".data (escapeHtml "Frobnicator".data) ∧
    resolveTypePathChars "no-marker".data "/".data "mypkg".data = none :=
  ⟨total_degradation.1 [] "Frobnicator".data (by decide) (by decide),
   total_degradation.2.2 "no-marker".data "/".data "mypkg".data
     (by decide) (by decide)⟩

/-- C10 — Local hint overrides the shared registry in `highlightType`:
when the per-occurrence hint resolves to `u` and the expression's leading
capitalized identifier `N` already maps to a different `v` in the shared
registry, the output is the signature highlight under the copied registry
with `N` overwritten to `u`; under that registry, `N` maps to `u` (not
`v`), every other key is unchanged, and the `N` token renders as an
anchor with `href` `u`.  The shared registry itself is untouched — the
extension is applied to the copy `regSet reg N u`, and `reg` appears
unchanged on the right of each conjunct. -/
theorem hint_overrides_shared_registry
    (type p b pkg : List Char) (reg : TypeRegistry) (u N v : List Char)
    (hp : p ≠ []) (hb : b ≠ [])
    (hres : resolveTypePathChars p b pkg = some u)
    (hN : simpleTypeName type = some N)
    (_hv : regGet reg N = some v) (_hne : v ≠ u) :
    highlightTypeChars type (some p) (some b) (some pkg) (some reg) =
      concatChunks ((tokenizeSigChars type).map (renderToken (some (regSet reg N u)))) ∧
    regGet (regSet reg N u) N = some u ∧
    (∀ k, k ≠ N → regGet (regSet reg N u) k = regGet reg k) ∧
    renderToken (some (regSet reg N u)) ⟨.type, N⟩ =
      "<a href=\"".data ++ escapeHtml u ++ "\" class=\"type-link\">".data ++
        spanWrap "sig-type".data (escapeHtml N) ++ "</a>".data := by
  have hget : regGet (regSet reg N u) N = some u := by
    rw [regGet_set]; simp
  refine ⟨?_, hget, ?_, ?_⟩
  · have hjb : jsOrDefault (some b) "/".data = b := by simp [jsOrDefault, hb]
    have hjp : jsOrDefault (some pkg) [] = pkg := by
      by_cases h : pkg = [] <;> simp [jsOrDefault, h]
    simp [highlightTypeChars, hp, hjb, hjp, hres, hN, highlightSignatureChars]
  · intro k hk
    rw [regGet_set, if_neg (fun h => hk h.symm)]
  · simp [renderToken, hget, orO]

/-- C10 (witness) — concrete instantiation: hint `/mypkg/types/#List`
overrides a conflicting shared-registry entry for `List`. -/
theorem hint_overrides_shared_registry_witness :
    highlightTypeChars "List[Item]".data (some "/mypkg/types/#List".data)
        (some "/".data) (some "mypkg".data)
        (some [("List".data, "https://other/List".data)]) =
      concatChunks ((tokenizeSigChars "List[Item]".data).map
        (renderToken (some (regSet [("List".data, "https://other/List".data)]
          "List".data "/mypkg/types/index.html#List".data)))) :=
  (hint_overrides_shared_registry "List[Item]".data "/mypkg/types/#List".data
    "/".data "mypkg".data [("List".data, "https://other/List".data)]
    "/mypkg/types/index.html#List".data "List".data "https://other/List".data
    (by decide) (by decide) (by decide) (by decide) (by decide) (by decide)).1

-- ============================================================================
-- C8: synthesized local-declaration URLs
-- ============================================================================

/-- C8 (counterexample) — `registerLocalType` builds the anchor with
`toAnchor`, which lowercases the declared name: registering the pathless
declaration `Result` in module `types` of package `mypkg` with base URL
`/` stores `/mypkg/types/index.html#result`, not the claim's
`…/index.html#Result` with the declared name verbatim. -/
theorem local_declaration_anchor_counterexample :
    registerLocalType "Result".data "types".data "mypkg".data "/".data [] =
      [("Result".data, "/mypkg/types/index.html#result".data)] ∧
    registerLocalType "Result".data "types".data "mypkg".data "/".data [] ≠
      [("Result".data, "/mypkg/types/index.html#Result".data)] :=
  ⟨by decide, by decide⟩

/-- C8 (amended) — for every nonempty declared name `N` not already
registered, `registerLocalType` registers `N` under
`baseUrl + packageName + "/" + modulePath + "/index.html#" + toAnchor N`:
the same-package URL shape, with the `toAnchor` slug of the declared name
(lowercased, non-alphanumeric runs collapsed to hyphens) as the anchor
rather than the declared name verbatim. -/
theorem local_declaration_anchor_slug (t m pkg base : List Char)
    (reg : TypeRegistry) (ht : t ≠ []) (hh : regHas reg t = false) :
    regGet (registerLocalType t m pkg base reg) t =
      some (base ++ pkg ++ '/' :: (m ++ "/index.html#".data ++ toAnchorChars t)) := by
  unfold registerLocalType
  simp [ht, hh, regGet_set]

/-- C8 (witness) — the amended registration law at the concrete
`Result`/`types`/`mypkg` instance. -/
theorem local_declaration_anchor_slug_witness :
    regGet (registerLocalType "Result".data "types".data "mypkg".data "/".data [])
        "Result".data =
      some ("/".data ++ "mypkg".data ++ '/' ::
        ("types".data ++ "/index.html#".data ++ toAnchorChars "Result".data)) :=
  local_declaration_anchor_slug "Result".data "types".data "mypkg".data "/".data []
    (by decide) (by decide)

-- ============================================================================
-- `preprocessDocstring`: the docstring structural normalizer
-- ============================================================================

/-- Caseless ASCII prefix test (`startsWithCaseless s pat` with `pat`
given lowercase), implementing the `i` flag of the docstring regexes on
their ASCII header alternatives. -/
def startsWithCaseless : List Char → List Char → Bool
  | _, [] => true
  | [], _ :: _ => false
  | c :: cs, p :: ps => Char.toLower c = p && startsWithCaseless cs ps

/-- `^(Example(?:s)?:)` at a line start, case-insensitively; returns the
captured header (original case) and the rest of the line. -/
def headerSplitExample (l : List Char) : Option (List Char × List Char) :=
  if startsWithCaseless l "example:".data then some (l.take 8, l.drop 8)
  else if startsWithCaseless l "examples:".data then some (l.take 9, l.drop 9)
  else none

/-- The section-header lookahead of the Example-block regex:
`(?:Args?|Returns?|Raises?|Note|Warning|See Also|Parameters?):`,
case-insensitively, at a line start. -/
def sectionHeadersA : List (List Char) :=
  ["args:", "arg:", "returns:", "return:", "raises:", "raise:", "note:",
   "warning:", "see also:", "parameters:", "parameter:"].map String.data

def sectionHeadA (l : List Char) : Bool :=
  sectionHeadersA.any (fun h => startsWithCaseless l h)

/-- The continuation-line lookahead of the inline-Example regex:
`(?:Args?|Returns?|Raises?|Note|Warning)[:\s]`, case-insensitively. -/
def sectionHeadersB : List (List Char) :=
  ["args", "arg", "returns", "return", "raises", "raise", "note",
   "warning"].map String.data

def sectionHeadB (l : List Char) : Bool :=
  sectionHeadersB.any (fun h =>
    startsWithCaseless l h &&
      (match l.drop h.length with
       | [] => false
       | c :: _ => c = ':' || isJsWs c))

/-- `String.prototype.trim`. -/
def trimJs (l : List Char) : List Char :=
  ((l.dropWhile isJsWs).reverse.dropWhile isJsWs).reverse

/-- The fence marker tested by `line.startsWith('```')`. -/
def fenceStr : List Char := "```".data

/-- The body loop of the Example-block regex:
`((?:(?!^<sectionHeadA>)[^\n]*\n?)*)` consumes whole lines (blank lines
included) until a section-header line or the end of input. -/
def collectBodyA : List (List Char) → List (List Char) × List (List Char)
  | [] => ([], [])
  | l :: ls =>
    if sectionHeadA l then ([], l :: ls)
    else
      let r := collectBodyA ls
      (l :: r.1, r.2)

/-- Join replacement lines onto a continuation whose first line starts at
the replacement's last character (the Example-block match consumes the
newline before the terminating section header, and its replacement does
not end in a newline, so the fence and the header line are glued). -/
def glueLines : List (List Char) → List (List Char) → List (List Char)
  | xs, [] => xs
  | [], y :: ys => y :: ys
  | xs, y :: ys => xs.dropLast ++ ((xs.getLastD [] ++ y) :: ys)

/-- The Example-block callback: trim the captured body; leave an
already-fenced body as is (behind the bold header), otherwise wrap it in
a ```mojo fence. -/
def exampleBlockRepl (hdr code : List Char) : List Char :=
  let t := trimJs code
  if listStartsWith t fenceStr then
    "**".data ++ hdr ++ "**\n\n".data ++ t
  else
    "**".data ++ hdr ++ "**\n\n```mojo\n".data ++ t ++ "\n```".data

/-- The Example-block pass
`replace(/^(Example(?:s)?:)\s*\n((?:(?!^…:)[^\n]*\n?)*)/gim, cb)` over
the line list: a match needs a header line whose remainder is whitespace
and at least one following line (the `\s*\n`, whose greedy run swallows
whole all-whitespace lines up to the last newline before content); the
body then runs to a section-header line or the end.  An empty trimmed
body returns the match unchanged (but the consumed lines are not
rescanned); fuel decreases on every recursive call, each of which is on a
strictly shorter line list. -/
def passAGo : Nat → List (List Char) → List (List Char)
  | 0, ls => ls
  | _ + 1, [] => []
  | fuel + 1, l :: ls =>
    match headerSplitExample l with
    | some hdrRest =>
      if hdrRest.2.all isJsWs && !ls.isEmpty then
        let wsPre := ls.takeWhile (fun m => m.all isJsWs)
        let rest2 := ls.dropWhile (fun m => m.all isJsWs)
        match rest2 with
        | [] => l :: ls
        | _ :: _ =>
          let ba := collectBodyA rest2
          let code := joinSep '\n' ba.1
          if trimJs code = [] then
            (l :: wsPre) ++ passAGo fuel ba.2
          else
            match ba.2 with
            | [] => splitOnChar '\n' (exampleBlockRepl hdrRest.1 code)
            | _ :: _ =>
              glueLines (splitOnChar '\n' (exampleBlockRepl hdrRest.1 code))
                (passAGo fuel ba.2)
      else l :: passAGo fuel ls
    | none => l :: passAGo fuel ls

/-- The continuation-line loop of the inline-Example regex:
`(?:\n(?!<sectionHeadB>)(?!\n)[^\n]+)*` consumes nonempty,
non-section-header lines. -/
def collectContB : List (List Char) → List (List Char) × List (List Char)
  | [] => ([], [])
  | m :: ms =>
    if m.isEmpty || sectionHeadB m then ([], m :: ms)
    else
      let r := collectContB ms
      (m :: r.1, r.2)

/-- The inline-Example pass
`replace(/^(Example(?:s)?:)\s+(\S[^\n]*(?:…)*)$/gim, cb)` over the line
list.  The greedy `\s+` either stays on the header line (nonempty
leading whitespace of the remainder) or runs across whole all-whitespace
lines to the first line holding a `\S` character; the capture starts at
that character and extends over the continuation lines.  The callback
fences the trimmed capture in ```mojo only when it is not already
processed (`**`/```-leading) and looks code-like (contains `=` or `(`);
otherwise the match is returned unchanged (consumed but not rescanned). -/
def passBGo : Nat → List (List Char) → List (List Char)
  | 0, ls => ls
  | _ + 1, [] => []
  | fuel + 1, l :: ls =>
    match headerSplitExample l with
    | none => l :: passBGo fuel ls
    | some hdrRest =>
      if hdrRest.2.all isJsWs then
        match ls.dropWhile (fun m => m.all isJsWs) with
        | [] => l :: passBGo fuel ls
        | fl :: rest2 =>
          let wsLines := ls.takeWhile (fun m => m.all isJsWs)
          let firstContent := fl.dropWhile isJsWs
          let cb := collectContB rest2
          let code := joinSep '\n' (firstContent :: cb.1)
          let t := trimJs code
          if listStartsWith t "**".data || listStartsWith t fenceStr then
            (l :: wsLines ++ fl :: cb.1) ++ passBGo fuel cb.2
          else if t.contains '=' || t.contains '(' then
            splitOnChar '\n'
                ("**".data ++ hdrRest.1 ++ "**\n\n```mojo\n".data ++ t ++ "\n```".data) ++
              passBGo fuel cb.2
          else (l :: wsLines ++ fl :: cb.1) ++ passBGo fuel cb.2
      else
        if (hdrRest.2.takeWhile isJsWs).isEmpty then l :: passBGo fuel ls
        else
          let firstContent := hdrRest.2.dropWhile isJsWs
          let cb := collectContB ls
          let code := joinSep '\n' (firstContent :: cb.1)
          let t := trimJs code
          if listStartsWith t "**".data || listStartsWith t fenceStr then
            (l :: cb.1) ++ passBGo fuel cb.2
          else if t.contains '=' || t.contains '(' then
            splitOnChar '\n'
                ("**".data ++ hdrRest.1 ++ "**\n\n```mojo\n".data ++ t ++ "\n```".data) ++
              passBGo fuel cb.2
          else (l :: cb.1) ++ passBGo fuel cb.2

/-- The backtick character (written by code point). -/
def btick : Char := Char.ofNat 96

/-- One attempted match of
`/(\w+)\[([^\]]*[=:][^\]]*)\]\(([^)]+)\)/g` whose `(\w+)` group is the
word run `run` and whose remainder is `rest`: the bracketed part runs to
the first `]` and must contain `=` or `:`; the parenthesized part runs to
the first `)` and must be nonempty. -/
def tryR1 (run rest : List Char) : Option (List Char × List Char) :=
  match rest with
  | '[' :: r1 =>
    let inner := r1.takeWhile (fun d => !(d = ']'))
    match r1.dropWhile (fun d => !(d = ']')) with
    | ']' :: r3 =>
      if inner.any (fun d => d = '=' || d = ':') then
        match r3 with
        | '(' :: r4 =>
          let args := r4.takeWhile (fun d => !(d = ')'))
          match r4.dropWhile (fun d => !(d = ')')) with
          | ')' :: r6 =>
            if args.isEmpty then none
            else some (run ++ '[' :: inner ++ ']' :: '(' :: (args ++ [')']), r6)
          | _ => none
        | _ => none
      else none
    | _ => none
  | _ => none

/-- The corresponding attempted match of
`/(\w+)\[([^\]]*[=:"][^\]]*)\](?!\()/g` (negative lookahead: the
character after `]` must not be `(`). -/
def tryR2 (run rest : List Char) : Option (List Char × List Char) :=
  match rest with
  | '[' :: r1 =>
    let inner := r1.takeWhile (fun d => !(d = ']'))
    match r1.dropWhile (fun d => !(d = ']')) with
    | ']' :: r3 =>
      if inner.any (fun d => d = '=' || d = ':' || d = '"') then
        match r3 with
        | '(' :: _ => none
        | _ => some (run ++ '[' :: (inner ++ [']']), r3)
      else none
    | _ => none
  | _ => none

/-- Global scan for the first bracket-escape replacement
(`$1[$2]($3)` wrapped in backticks): a match can only begin at the start
of a maximal `\w` run (a match beginning inside the run would fail or
succeed identically on the same suffix), so the scan jumps run by run. -/
def escapeR1Go : Nat → List Char → List Char
  | 0, s => s
  | _ + 1, [] => []
  | fuel + 1, c :: cs =>
    if isIdCont c then
      let run := c :: cs.takeWhile isIdCont
      let rest := cs.dropWhile isIdCont
      match tryR1 run rest with
      | some mr => btick :: (mr.1 ++ btick :: escapeR1Go fuel mr.2)
      | none => run ++ escapeR1Go fuel rest
    else c :: escapeR1Go fuel cs

/-- Global scan for the second bracket-escape replacement (`$1[$2]`
wrapped in backticks). -/
def escapeR2Go : Nat → List Char → List Char
  | 0, s => s
  | _ + 1, [] => []
  | fuel + 1, c :: cs =>
    if isIdCont c then
      let run := c :: cs.takeWhile isIdCont
      let rest := cs.dropWhile isIdCont
      match tryR2 run rest with
      | some mr => btick :: (mr.1 ++ btick :: escapeR2Go fuel mr.2)
      | none => run ++ escapeR2Go fuel rest
    else c :: escapeR2Go fuel cs

/-- Both bracket-escape replacements on one line, in source order. -/
def escapeLine (l : List Char) : List Char :=
  let p1 := escapeR1Go (l.length + 1) l
  escapeR2Go (p1.length + 1) p1

/-- The fence-aware line map of the escape step: a line starting with
the fence marker toggles `inCodeBlock` and passes through; a line inside
a fence passes through; any other line gets the bracket escapes. -/
def escapeLines : Bool → List (List Char) → List (List Char)
  | _, [] => []
  | inCodeBlock, l :: ls =>
    if listStartsWith l fenceStr then l :: escapeLines (!inCodeBlock) ls
    else if inCodeBlock then l :: escapeLines inCodeBlock ls
    else escapeLine l :: escapeLines inCodeBlock ls

/-- `replace(/^(Note:)\s*/gim, '\n> **Note:** ')`: at every line start,
a caseless `Note:` plus the following maximal whitespace run (newlines
included) becomes the fixed callout prefix.  The Boolean tracks whether
the current position follows a line terminator (`^` with the `m` flag). -/
def notePassGo : Nat → Bool → List Char → List Char
  | 0, _, s => s
  | _ + 1, _, [] => []
  | fuel + 1, atLS, c :: cs =>
    if atLS && startsWithCaseless (c :: cs) "note:".data then
      let after := (c :: cs).drop 5
      let ws := after.takeWhile isJsWs
      let rest := after.dropWhile isJsWs
      let nextLS := match ws.getLast? with
        | some d => isLineTerm d
        | none => false
      "\n> **Note:** ".data ++ notePassGo fuel nextLS rest
    else c :: notePassGo fuel (isLineTerm c) cs

/-- `replace(/^(Warning:)\s*/gim, '\n> ⚠️ **Warning:** ')`. -/
def warnPassGo : Nat → Bool → List Char → List Char
  | 0, _, s => s
  | _ + 1, _, [] => []
  | fuel + 1, atLS, c :: cs =>
    if atLS && startsWithCaseless (c :: cs) "warning:".data then
      let after := (c :: cs).drop 8
      let ws := after.takeWhile isJsWs
      let rest := after.dropWhile isJsWs
      let nextLS := match ws.getLast? with
        | some d => isLineTerm d
        | none => false
      "\n> \u26A0\uFE0F **Warning:** ".data ++ warnPassGo fuel nextLS rest
    else c :: warnPassGo fuel (isLineTerm c) cs

/-- `preprocessDocstring(markdown)`: the Example-block pass, the
inline-Example pass, the fence-aware bracket escapes (via the source's
own split/map/join on `'\n'`), then the Note and Warning callout passes
(which run on the whole text with no fence tracking). -/
def preprocessChars (d : List Char) : List Char :=
  let aLines := splitOnChar '\n' d
  let a := joinSep '\n' (passAGo (aLines.length + 1) aLines)
  let bLines := splitOnChar '\n' a
  let b := joinSep '\n' (passBGo (bLines.length + 1) bLines)
  let eLines := splitOnChar '\n' b
  let e := joinSep '\n' (escapeLines false eLines)
  let nn := notePassGo (e.length + 1) true e
  warnPassGo (nn.length + 1) true nn

/-- `preprocessDocstring` over `String`. -/
def preprocessDocstring (d : String) : String :=
  ⟨preprocessChars d.data⟩

-- ============================================================================
-- C4 / C5: idempotence and fence safety of the normalizer
-- ============================================================================

/-- C4 (counterexample) — the normalizer is not idempotent: running
`preprocessDocstring` on its own output differs from running it once
already at the docstring `foo[x=1]`. -/
theorem normalizer_idempotence_counterexample :
    preprocessDocstring (preprocessDocstring "foo[x=1]") ≠
      preprocessDocstring "foo[x=1]" := by
  decide

/-- C4 (amended) — the bracket-generic escaping rule re-fires on its own
already-normalized output, because the backtick it inserted after `]` is
not `(` and so still satisfies the rule's negative lookahead:
`foo[x=1]` normalizes to the inline code span `` `foo[x=1]` ``, and a
second application wraps that output in another pair of backticks.  (The
other rules leave both strings untouched.) -/
theorem normalizer_bracket_refire :
    preprocessDocstring "foo[x=1]" = "`foo[x=1]`" ∧
    preprocessDocstring "`foo[x=1]`" = "``foo[x=1]``" :=
  ⟨by decide, by decide⟩

/-- C5 (counterexample) — the Note:/Warning: callout rules of
`preprocessDocstring` run with no fence tracking: in the docstring
  ```\nNote: x\n```
the line `Note: x` lies between an opening and a closing fence-marker
line, yet the callout rule rewrites it (no line of the output equals it). -/
theorem fence_safety_callout_counterexample :
    preprocessDocstring "```\nNote: x\n```" = "```\n\n> **Note:** x\n```" ∧
    "Note: x".data ∉ splitOnChar '\n' (preprocessDocstring "```\nNote: x\n```").data :=
  ⟨by decide, by decide⟩

theorem escapeLines_getD_inside (ls : List (List Char)) :
    ∀ (b : Bool) (i : Nat),
      ((if b then 1 else 0) +
          (ls.take i).countP (fun m => listStartsWith m fenceStr)) % 2 = 1 →
      listStartsWith (ls.getD i []) fenceStr = false →
      (escapeLines b ls).getD i [] = ls.getD i [] := by
  induction ls with
  | nil =>
    intro b i hp hf
    simp [escapeLines]
  | cons l ls ih =>
    intro b i hp hf
    cases i with
    | zero =>
      have hb : b = true := by
        cases b
        · simp at hp
        · rfl
      subst hb
      have hl : listStartsWith l fenceStr = false := by simpa using hf
      simp [escapeLines, hl]
    | succ j =>
      have hf2 : listStartsWith (ls.getD j []) fenceStr = false := by simpa using hf
      by_cases hl : listStartsWith l fenceStr = true
      · have hp2 : ((if !b then 1 else 0) +
            (ls.take j).countP (fun m => listStartsWith m fenceStr)) % 2 = 1 := by
          rw [List.take_succ_cons, List.countP_cons] at hp
          cases b <;> simp [hl] at hp ⊢ <;> omega
        have hrec := ih (!b) j hp2 hf2
        simp only [escapeLines, hl, if_true]
        simpa [List.getD] using hrec
      · have hlf : listStartsWith l fenceStr = false := by
          cases h : listStartsWith l fenceStr
          · rfl
          · exact absurd h hl
        have hp2 : ((if b then 1 else 0) +
            (ls.take j).countP (fun m => listStartsWith m fenceStr)) % 2 = 1 := by
          rw [List.take_succ_cons, List.countP_cons] at hp
          simpa [hlf] using hp
        have hrec := ih b j hp2 hf2
        cases b
        · simp only [escapeLines, hlf, Bool.false_eq_true, if_false]
          simpa [List.getD] using hrec
        · simp only [escapeLines, hlf, Bool.false_eq_true, if_false, if_true]
          simpa [List.getD] using hrec

/-- C5 (amended) — Fence safety holds for the bracket-generic escaping
rule: on any docstring (viewed as its `'\n'`-split line list), every
line preceded by an odd number of fence-marker lines — i.e. lying between
an opening fence-marker line and its closing one — and not itself a
fence-marker line is left character-for-character unchanged by the
escape pass.  The Note:/Warning: callout rules of `preprocessDocstring`,
by contrast, run with no fence tracking and do rewrite fenced lines (see
the counterexample). -/
theorem bracket_escape_fence_safety (lines : List (List Char)) (i : Nat)
    (hodd : (lines.take i).countP (fun m => listStartsWith m fenceStr) % 2 = 1)
    (hline : listStartsWith (lines.getD i []) fenceStr = false) :
    (escapeLines false lines).getD i [] = lines.getD i [] :=
  escapeLines_getD_inside lines false i (by simpa using hodd) hline

/-- C5 (witness) — the fenced line `foo[x=1]` between two fence markers
is untouched by the escape pass. -/
theorem bracket_escape_fence_safety_witness :
    (escapeLines false ["```".data, "foo[x=1]".data, "```".data]).getD 1 [] =
      ["```".data, "foo[x=1]".data, "```".data].getD 1 [] :=
  bracket_escape_fence_safety ["```".data, "foo[x=1]".data, "```".data] 1
    (by decide) (by decide)

end Mojodoc
